import Mathlib

/-!
Verification of the app-store coordination layer (src/app/src/lib/stores/app-store.ts):
the push/pull/fetch mutual-exclusion gates, the fast-forward planner, the composed
progress reporting of `performPush`, the staleness discipline of commit-selection
diff loads, the diverging-branch banner, the background-fetch policy and the
merge-preview single-flight discipline.

Pure fragments of the source are translated as Lean functions; the stateful methods
are translated as explicit state-passing functions over records mirroring the
relevant state slices.  Helpers the store imports from elsewhere in the repository
(`eligibleForFastForward`, `formatAsLocalRef`, `promiseWithMinimumTimeout`) are
modelled from the spec, as marked on their doc comments; the external git layer
(`getBranchAheadBehind`, `updateRef`, progress callbacks) is represented by oracle
parameters and emitted-effect lists.
-/

namespace AppStore

/-! ## Operation gates (withPushPull, isCommitting) -/

/-- Scalar reentrancy flags of one repository state slice, plus an abstract `work`
counter standing for any other state a wrapped operation may mutate. -/
structure GateFlags where
  isCommitting : Bool
  isPushPullFetchInProgress : Bool
  work : Nat
deriving DecidableEq, Repr

/-- Source `withPushPull` (app-store.ts lines 2990-3013): if
`isPushPullFetchInProgress` is already set the call returns at once (no work, no
error); otherwise the flag is set, `fn` runs, and a `finally` clause clears the
flag whether `fn` returned normally or threw.  A thrown error is modelled as
`some e` in the second component and propagates to the caller. -/
def withPushPull (fn : GateFlags → GateFlags × Option String) (s : GateFlags) :
    GateFlags × Option String :=
  if s.isPushPullFetchInProgress then (s, none)
  else
    let s1 := { s with isPushPullFetchInProgress := true }
    let r := fn s1
    ({ r.1 with isPushPullFetchInProgress := false }, r.2)

/-- Source `isCommitting` (app-store.ts lines 2904-2928): gated on the
`isCommitting` flag; returns `undefined` (here `Except.ok none`) when the gate is
held, otherwise runs `fn`, converts its `string | undefined` result to
`sha !== undefined`, and clears the flag in a `finally` clause on both the normal
and the throwing path. -/
def isCommitting (fn : GateFlags → GateFlags × Except String (Option String))
    (s : GateFlags) : GateFlags × Except String (Option Bool) :=
  if s.isCommitting then (s, Except.ok none)
  else
    let s1 := { s with isCommitting := true }
    match fn s1 with
    | (s2, Except.ok sha) => ({ s2 with isCommitting := false }, Except.ok (some sha.isSome))
    | (s2, Except.error e) => ({ s2 with isCommitting := false }, Except.error e)

/-! ## Network-operation trace model (for the networkSync exclusion claim)

`performPush`, `performPull` and `performFetch` all wrap their body in
`withPushPull`; `_fetchRefspec` (lines 3335-3357) performs its fetch without
consulting `isPushPullFetchInProgress`, as its own doc comment states.  A request
is modelled by its atomic gate-check-and-acquire step; requests fired
simultaneously are a list of such steps, none of which completes before the
others are checked (the check and the flag set are synchronous in the source, so
they are atomic under the single-threaded scheduling model). -/

inductive NetOp where
  | push
  | pull
  | fetch
  | fetchRefspec
deriving DecidableEq, Repr

/-- Which network entrypoints wrap themselves in `withPushPull`: `_push`, `_pull`
and `_fetch`/`_fetchRemote` do (via performPush/performPull/performFetch);
`_fetchRefspec` deliberately does not opt in. -/
def opUsesGate : NetOp → Bool
  | NetOp.fetchRefspec => false
  | _ => true

structure NetState where
  isPushPullFetchInProgress : Bool
  inFlight : List NetOp
  executed : List NetOp
deriving DecidableEq, Repr

def initialNetState : NetState := ⟨false, [], []⟩

/-- One request arriving: a gated operation no-ops if the flag is held, otherwise
acquires the flag and begins executing; `_fetchRefspec` begins executing
unconditionally. -/
def requestStart (s : NetState) (op : NetOp) : NetState :=
  if opUsesGate op then
    if s.isPushPullFetchInProgress then s
    else
      { isPushPullFetchInProgress := true,
        inFlight := s.inFlight ++ [op],
        executed := s.executed ++ [op] }
  else
    { s with inFlight := s.inFlight ++ [op], executed := s.executed ++ [op] }

/-- Fire a batch of requests while none of them has completed yet. -/
def fireAll (ops : List NetOp) (s : NetState) : NetState :=
  ops.foldl requestStart s

/-! ## Fast-forward planner -/

structure Branch where
  name : String
  upstream : Option String
  tipSha : String
deriving DecidableEq, Repr

structure AheadBehind where
  ahead : Nat
  behind : Nat
deriving DecidableEq, Repr

/-- The slice of `branchesState` that `fastForwardBranches` reads: all local
branches, the default branch, and the current branch name (`null` unless the tip
is a valid branch). -/
structure BranchesState where
  allBranches : List Branch
  defaultBranch : Option Branch
  currentBranchName : Option String
deriving DecidableEq, Repr

/-- Modelled from the spec: `eligibleForFastForward` is imported from the git
library (not under src/); per spec §4.4 step 1 a branch is eligible when it is
tracking a remote branch and is not the current branch. -/
def eligibleForFastForward (b : Branch) (currentBranchName : Option String) : Bool :=
  b.upstream.isSome && !(some b.name == currentBranchName)

/-- Source constant (app-store.ts line 219). -/
def FastForwardBranchesThreshold : Nat := 20

/-- Modelled from the spec: `formatAsLocalRef` is imported from the git library
(not under src/); the local ref of a branch, written with the usual
`refs/heads/` prefix. -/
def formatAsLocalRef (name : String) : String := "refs/heads/" ++ name

/-- One `updateRef` call emitted by the planner: the ref being moved, the old
value passed (`branch.tip.sha`) and the new value passed (`branch.upstream`,
which git resolves to the upstream tip). -/
structure RefUpdate where
  ref : String
  oldSha : String
  newValue : String
deriving DecidableEq, Repr

def eligibleBranchesOf (bs : BranchesState) : List Branch :=
  bs.allBranches.filter (fun b => eligibleForFastForward b bs.currentBranchName)

/-- Steps 1-2 of `fastForwardBranches` (lines 3163-3180): filter to eligible
branches, then, when the eligible count reaches the threshold, narrow to the
default branch if it is itself eligible and to the empty set otherwise. -/
def fastForwardEligible (bs : BranchesState) : List Branch :=
  let eligibleBranches := eligibleBranchesOf bs
  if FastForwardBranchesThreshold ≤ eligibleBranches.length then
    match bs.defaultBranch with
    | some d => if eligibleForFastForward d bs.currentBranchName then [d] else []
    | none => []
  else eligibleBranches

/-- Step 3 of `fastForwardBranches` (lines 3182-3205): for each remaining branch
query ahead/behind versus its upstream (the external `getBranchAheadBehind`,
passed as an oracle; a `none` answer skips the branch), and only when
`ahead === 0 && behind > 0` emit the `updateRef` call moving the local ref to the
upstream. -/
def fastForwardBranches (bs : BranchesState) (ab : Branch → Option AheadBehind) :
    List RefUpdate :=
  (fastForwardEligible bs).filterMap fun branch =>
    match ab branch with
    | none => none
    | some n =>
      if n.ahead = 0 ∧ 0 < n.behind then
        some ⟨formatAsLocalRef branch.name, branch.tipSha, branch.upstream.getD ""⟩
      else none

/-! ## Composed push progress (performPush, lines 2806-2888)

The sequence of `value` fields passed to `updatePushPullFetchProgress` during one
successful `performPush`: an initial `0`, the push-phase callbacks, the
fetch-phase callbacks, the refresh-start value and the fast-forward value, then
`null` to clear the progress.  The weights are the source's:
`pushWeight = 2.5`, `fetchWeight = 1`, `refreshWeight = 0.1`, both rescaled by
`(1 / (pushWeight + fetchWeight)) * (1 - refreshWeight)`. -/

def pushPhaseRawWeight : ℚ := 5 / 2

def fetchPhaseRawWeight : ℚ := 1

def pushRefreshWeight : ℚ := 1 / 10

def pushScale : ℚ := (1 / (pushPhaseRawWeight + fetchPhaseRawWeight)) * (1 - pushRefreshWeight)

def pushWeight : ℚ := pushPhaseRawWeight * pushScale

def pushFetchWeight : ℚ := fetchPhaseRawWeight * pushScale

/-- The numeric progress values reported during one successful `performPush`,
given the phase-local fractions `ps` delivered by the push callback and `fs`
delivered by the fetch callback. -/
def performPushValues (ps fs : List ℚ) : List ℚ :=
  [0] ++ ps.map (fun p => pushWeight * p)
    ++ fs.map (fun f => pushWeight + f * pushFetchWeight)
    ++ [pushWeight + pushFetchWeight]
    ++ [pushWeight + pushFetchWeight + pushRefreshWeight * (1 / 2)]

/-- The full stream handed to `updatePushPullFetchProgress`, ending with the
`null` that clears the progress (line 2888). -/
def performPushProgress (ps fs : List ℚ) : List (Option ℚ) :=
  (performPushValues ps fs).map some ++ [none]

/-! ## Commit selection (_changeCommitSelection, _changeFileSelection) -/

structure CommittedFileChange where
  id : String
  path : String
deriving DecidableEq, Repr

inductive DiffType where
  | text
  | image
  | binary
  | large
  | sketch
deriving DecidableEq, Repr

/-- A loaded diff: its kind plus an abstract payload slot for merged-in sketch
previews. -/
structure Diff where
  kind : DiffType
  sketchPreview : Option Nat
deriving DecidableEq, Repr

/-- The `commitSelection` state slice. -/
structure CommitSelection where
  sha : Option String
  file : Option CommittedFileChange
  changedFiles : List CommittedFileChange
  diff : Option Diff
  loadingDiff : Option Nat
deriving DecidableEq, Repr

/-- Source `_changeCommitSelection` (lines 617-636): a no-op (and no update
emitted) when the requested SHA equals the current one; otherwise the slice is
reset to the new SHA with file, changedFiles, diff and loadingDiff cleared, and
an update is emitted.  The Bool records whether `emitUpdate` ran. -/
def changeCommitSelection (cs : CommitSelection) (sha : String) :
    CommitSelection × Bool :=
  if cs.sha = some sha then (cs, false)
  else
    ({ sha := some sha, file := none, changedFiles := [],
       diff := none, loadingDiff := none }, true)

/-- Start phase of `_changeFileSelection` (lines 1091-1102): mint a `diffId`
token, record the new file, clear the diff and store the token in
`loadingDiff`. -/
def changeFileSelectionStart (file : CommittedFileChange) (diffId : Nat)
    (cs : CommitSelection) : CommitSelection :=
  { cs with file := some file, diff := none, loadingDiff := some diffId }

/-- Completion phase of `_changeFileSelection` (lines 1133-1153), applied to the
state found after `getCommitDiff` resolves: the result is discarded when the
selected SHA differs from the one recorded at start, when no file is selected
any more, or when the selected file's id differs from the loaded file's id;
otherwise the diff is stored and `loadingDiff` is cleared unless the diff is a
sketch diff. -/
def changeFileSelectionComplete (shaBefore : Option String)
    (file : CommittedFileChange) (diff : Diff) (cs : CommitSelection) :
    CommitSelection :=
  if cs.sha ≠ shaBefore then cs
  else
    match cs.file with
    | none => cs
    | some f =>
      if f.id ≠ file.id then cs
      else
        { cs with diff := some diff,
                  loadingDiff :=
                    if diff.kind ≠ DiffType.sketch then none else cs.loadingDiff }

def mergeSketchPreview (d : Diff) (preview : Nat) : Diff :=
  { d with sketchPreview := some preview }

/-- Sketch-preview callback of `updateDiffWithSketchPreview` for the
commit-selection slice (lines 1861-1918): aborts when the token is falsy or does
not match the slice's current `loadingDiff`; reschedules itself (modelled as no
mutation now) when no diff has landed yet; otherwise merges the preview into a
sketch diff, or clears diff and token for a non-sketch diff.  `none` means the
slice was not mutated by this invocation. -/
def updateDiffWithSketchPreview (diffId : Nat) (preview : Nat)
    (cs : CommitSelection) : Option CommitSelection :=
  if diffId = 0 ∨ cs.loadingDiff ≠ some diffId then none
  else
    match cs.diff with
    | none => none
    | some d =>
      if d.kind = DiffType.sketch then
        some { cs with diff := some (mergeSketchPreview d preview), loadingDiff := none }
      else
        some { cs with diff := none, loadingDiff := none }

/-! ## Diverging-branch banner (_initializeCompare, lines 754-770) -/

/-- Source `getBehindOrDefault` (lines 4720-4728). -/
def getBehindOrDefault : Option AheadBehind → Nat
  | none => 0
  | some n => n.behind

/-- The visibility passed to `_setDivergingBranchBannerVisibility` by
`_initializeCompare`: `false` when no comparison branch was inferred, otherwise
`currentCount > 0 && previousCount !== currentCount` where the counts are the
behind-counts (or 0) of the newly computed and the previously stored
inferred-branch ahead/behind. -/
def divergingBannerVisible (inferredBranch : Option Branch)
    (currentAheadBehind previousAheadBehind : Option AheadBehind) : Bool :=
  match inferredBranch with
  | none => false
  | some _ =>
    let currentCount := getBehindOrDefault currentAheadBehind
    let previousCount := getBehindOrDefault previousAheadBehind
    decide (0 < currentCount) && decide (previousCount ≠ currentCount)

/-! ## Background-fetch policy (shouldBackgroundFetch, lines 1317-1354) -/

/-- Source constant (line 248): thirty minutes in milliseconds. -/
def BackgroundFetchMinimumInterval : Int := 30 * 60 * 1000

/-- Source `shouldBackgroundFetch`, over timestamps in milliseconds: fetch when
never fetched; skip when the last fetch is within the minimum interval; past the
interval, fetch when `lastPush` is unknown or the last push is later than the
last fetch, and skip otherwise. -/
def shouldBackgroundFetch (lastFetched : Option Int) (now : Int)
    (lastPush : Option Int) : Bool :=
  match lastFetched with
  | none => true
  | some lf =>
    if now - lf < BackgroundFetchMinimumInterval then false
    else
      match lastPush with
      | none => true
      | some lp => if lf < lp then true else false

/-! ## Merge-preview single flight (updateCompareToBranch, lines 899-950) -/

inductive MergeResultKind where
  | loading
  | clean
  | conflicts
deriving DecidableEq, Repr

/-- The fields of the store involved in the merge-preview discipline:
`currentMergeTreePromise` (line 324) plus the compare slice's `mergeStatus`.
`started` counts merge-tree computations ever started and `nextId` mints promise
identities. -/
structure MergePreviewState where
  currentMergeTreePromise : Option Nat
  mergeStatus : Option MergeResultKind
  started : Nat
  nextId : Nat
deriving DecidableEq, Repr

/-- Source `500` millisecond minimum timeout passed to
`promiseWithMinimumTimeout` at line 914. -/
def mergeTreeMinimumDisplayTime : Nat := 500

/-- Modelled from the spec: `promiseWithMinimumTimeout` is imported from
lib/promise (not under src/); it resolves with the wrapped function's result no
earlier than the minimum timeout, so its completion time is the maximum of the
two durations. -/
def promiseWithMinimumTimeout (fnDuration minimumTimeout : Nat) : Nat :=
  max fnDuration minimumTimeout

/-- Tail of `updateCompareToBranch` (lines 899-950): set `mergeStatus` to
Loading and emit; if a merge-tree promise is already pending, return that same
promise without starting anything; otherwise, when the tip is a valid branch and
the comparison is behind, start one new computation and record it in
`currentMergeTreePromise`; otherwise clear `mergeStatus`.  The second component
is the promise returned to the caller. -/
def updateCompareToBranchMergeStep (tipValid : Bool) (behind : Nat)
    (s : MergePreviewState) : MergePreviewState × Option Nat :=
  let s1 := { s with mergeStatus := some MergeResultKind.loading }
  match s1.currentMergeTreePromise with
  | some p => (s1, some p)
  | none =>
    if tipValid && decide (0 < behind) then
      ({ s1 with currentMergeTreePromise := some s1.nextId,
                 started := s1.started + 1, nextId := s1.nextId + 1 },
        some s1.nextId)
    else ({ s1 with mergeStatus := none }, none)

/-! ## Concrete instances used by counterexamples and witnesses -/

/-- A wrapped network operation that mutates state and then throws. -/
def throwingNetFn : GateFlags → GateFlags × Option String :=
  fun g => ({ g with work := g.work + 1 }, some "network failure")

/-- A wrapped commit operation that mutates state and then throws. -/
def throwingCommitFn : GateFlags → GateFlags × Except String (Option String) :=
  fun g => ({ g with work := g.work + 1 }, Except.error "commit failure")

def idleFlags : GateFlags := ⟨false, false, 0⟩

def busyFlags : GateFlags := ⟨true, true, 0⟩

/-- Twenty local branches, each tracking a remote branch. -/
def c3Branches : List Branch :=
  (List.range 20).map fun i => ⟨"b" ++ toString i, some ("origin/b" ++ toString i), "sha"⟩

/-- A repository with exactly twenty eligible branches and no default branch. -/
def c3State : BranchesState := ⟨c3Branches, none, none⟩

/-- Every branch is strictly behind its upstream with no local commits. -/
def c3AB : Branch → Option AheadBehind := fun _ => some ⟨0, 1⟩

def c3DefaultBranch : Branch := ⟨"main", some "origin/main", "sha"⟩

/-- The twenty-eligible-branch repository, now with an eligible default branch. -/
def c3StateD : BranchesState := ⟨c3Branches, some c3DefaultBranch, none⟩

/-- A repository with a single eligible branch, well below the threshold. -/
def cSmallState : BranchesState :=
  ⟨[⟨"dev", some "origin/dev", "s1"⟩, ⟨"x", none, "s2"⟩], none, some "x"⟩

def c5File : CommittedFileChange := ⟨"file-1", "a.sketch"⟩

def c5Base : CommitSelection := ⟨some "sha-a", none, [c5File], none, none⟩

/-- First `_changeFileSelection` call: mints token 1. -/
def c5FirstStart : CommitSelection := changeFileSelectionStart c5File 1 c5Base

/-- Second `_changeFileSelection` call on the same file while the first load is
still in flight: mints token 2, so the slice no longer records token 1. -/
def c5Mid : CommitSelection := changeFileSelectionStart c5File 2 c5FirstStart

def c5Diff : Diff := ⟨DiffType.text, none⟩

/-- Completion of the first load (token 1) against the intervening state. -/
def c5After : CommitSelection := changeFileSelectionComplete (some "sha-a") c5File c5Diff c5Mid

def c6Branch : Branch := ⟨"feature", some "origin/feature", "deadbeef"⟩

def c8Pending : MergePreviewState := ⟨some 7, some MergeResultKind.loading, 1, 8⟩

def c10Sel : CommitSelection := ⟨some "a", none, [], none, none⟩

/-! ## Theorems -/

/-- C9: the reentrancy gates release their flag on every exit path.  When
`withPushPull` (resp. `isCommitting`) actually runs, the flag is false
afterwards whatever the wrapped function did — including mutating state and
throwing; when the gate is already held, the call returns the state unchanged
with no work done and no error raised. -/
theorem gates_release_on_all_paths
    (fnP : GateFlags → GateFlags × Option String)
    (fnC : GateFlags → GateFlags × Except String (Option String))
    (s : GateFlags) :
    (s.isPushPullFetchInProgress = false →
      (withPushPull fnP s).1.isPushPullFetchInProgress = false) ∧
    (s.isPushPullFetchInProgress = true → withPushPull fnP s = (s, none)) ∧
    (s.isCommitting = false → (isCommitting fnC s).1.isCommitting = false) ∧
    (s.isCommitting = true → isCommitting fnC s = (s, Except.ok none)) := by
  refine ⟨fun h => ?_, fun h => ?_, fun h => ?_, fun h => ?_⟩
  · simp [withPushPull, h]
  · simp [withPushPull, h]
  · unfold isCommitting
    rw [if_neg (by simp [h])]
    rcases hfn : fnC { s with isCommitting := true } with ⟨s2, r⟩
    cases r <;> simp [hfn]
  · simp [isCommitting, h]

/-- C9 witness: a wrapped function that mutates state and throws still leaves
the gate released, and a call finding the gate held is a silent no-op. -/
theorem gates_release_on_all_paths_witness :
    (withPushPull throwingNetFn idleFlags).1.isPushPullFetchInProgress = false ∧
    withPushPull throwingNetFn busyFlags = (busyFlags, none) ∧
    (isCommitting throwingCommitFn idleFlags).1.isCommitting = false ∧
    isCommitting throwingCommitFn busyFlags = (busyFlags, Except.ok none) :=
  ⟨(gates_release_on_all_paths throwingNetFn throwingCommitFn idleFlags).1 rfl,
   (gates_release_on_all_paths throwingNetFn throwingCommitFn busyFlags).2.1 rfl,
   (gates_release_on_all_paths throwingNetFn throwingCommitFn idleFlags).2.2.1 rfl,
   (gates_release_on_all_paths throwingNetFn throwingCommitFn busyFlags).2.2.2 rfl⟩

/-- C1 counterexample: `_fetchRefspec` performs a network fetch without
consulting `isPushPullFetchInProgress` (its own doc comment says it "does not
opt-in to checks that prevent multiple concurrent network actions"), so firing
it while a push holds the gate leaves two networkSync-class operations in
flight — the later request executed rather than no-oping, refuting the claim
that at most one of fetch/push/pull is ever in flight. -/
theorem fetchRefspec_bypasses_gate_cex :
    (fireAll [NetOp.push, NetOp.fetchRefspec] initialNetState).isPushPullFetchInProgress = true ∧
    (fireAll [NetOp.push, NetOp.fetchRefspec] initialNetState).inFlight =
      [NetOp.push, NetOp.fetchRefspec] ∧
    (fireAll [NetOp.push, NetOp.fetchRefspec] initialNetState).inFlight.length = 2 := by
  decide

theorem fireAll_gate_held (ops : List NetOp) (s : NetState)
    (hflag : s.isPushPullFetchInProgress = true)
    (hops : ∀ op ∈ ops, opUsesGate op = true) : fireAll ops s = s := by
  induction ops with
  | nil => rfl
  | cons op rest ih =>
    have h1 : requestStart s op = s := by
      simp [requestStart, hops op (by simp), hflag]
    show fireAll rest (requestStart s op) = s
    rw [h1]
    exact ih (fun o ho => hops o (by simp [ho]))

/-- C1 amended: among the network entrypoints that opt into the gate (`_push`,
`_pull`, `_fetch`/`_fetchRemote`, all wrapping `withPushPull`), firing any
non-empty batch of requests while none has completed executes exactly the first
one; the rest find `isPushPullFetchInProgress` set and no-op, leaving the state
exactly as the single executing operation left it.  (`_fetchRefspec` is the
deliberate exception shown in the counterexample.) -/
theorem gated_networkSync_exactly_one (ops : List NetOp) (hne : ops ≠ [])
    (hops : ∀ op ∈ ops, opUsesGate op = true) :
    fireAll ops initialNetState = ⟨true, [ops.head hne], [ops.head hne]⟩ := by
  cases ops with
  | nil => exact absurd rfl hne
  | cons op rest =>
    have h1 : requestStart initialNetState op = ⟨true, [op], [op]⟩ := by
      simp [requestStart, hops op (by simp), initialNetState]
    show fireAll rest (requestStart initialNetState op) = _
    rw [h1, fireAll_gate_held rest _ rfl (fun o ho => hops o (by simp [ho]))]
    rfl

/-- C1 witness: fetch, push and pull fired simultaneously — exactly the first
executes, the others no-op. -/
theorem gated_networkSync_exactly_one_witness :
    fireAll [NetOp.fetch, NetOp.push, NetOp.pull] initialNetState =
      ⟨true, [NetOp.fetch], [NetOp.fetch]⟩ :=
  gated_networkSync_exactly_one [NetOp.fetch, NetOp.push, NetOp.pull]
    (by decide) (by decide)

/-- C10: `_changeCommitSelection` with the currently selected SHA leaves the
whole slice unchanged and emits no update; with a different SHA it resets file,
changedFiles, diff and loadingDiff; and a repeated call with the same SHA is
always a no-op. -/
theorem changeCommitSelection_idempotent (cs : CommitSelection) (sha : String) :
    (cs.sha = some sha → changeCommitSelection cs sha = (cs, false)) ∧
    (cs.sha ≠ some sha →
      changeCommitSelection cs sha =
        ({ sha := some sha, file := none, changedFiles := [], diff := none,
           loadingDiff := none }, true)) ∧
    changeCommitSelection (changeCommitSelection cs sha).1 sha =
      ((changeCommitSelection cs sha).1, false) := by
  unfold changeCommitSelection
  by_cases h : cs.sha = some sha <;> simp [h]

/-- C10 witness: re-selecting the current commit is a silent no-op; selecting a
different commit resets the slice. -/
theorem changeCommitSelection_idempotent_witness :
    changeCommitSelection c10Sel "a" = (c10Sel, false) ∧
    changeCommitSelection c10Sel "b" =
      (⟨some "b", none, [], none, none⟩, true) :=
  ⟨(changeCommitSelection_idempotent c10Sel "a").1 rfl,
   (changeCommitSelection_idempotent c10Sel "b").2.1 (by decide)⟩

/-- C6 counterexample: the behind-count of the inferred comparison branch
decreased from 5 to 3, yet `_initializeCompare` makes the banner visible,
because the source tests `previousCount !== currentCount` rather than
`previousCount < currentCount` — refuting "one that decreased never re-triggers
the banner". -/
theorem divergingBanner_decreased_count_cex :
    divergingBannerVisible (some c6Branch) (some ⟨0, 3⟩) (some ⟨0, 5⟩) = true ∧
    (3 : Nat) < 5 := by
  decide

/-- C6 amended: the diverging-branch banner is made visible exactly when a
comparison branch was inferred, its behind-count is greater than zero, and that
count differs (in either direction) from the previously stored behind-count; an
unchanged count never re-triggers it. -/
theorem divergingBanner_visible_iff (ib : Option Branch)
    (cur prev : Option AheadBehind) :
    divergingBannerVisible ib cur prev = true ↔
      (ib.isSome = true ∧ 0 < getBehindOrDefault cur ∧
        getBehindOrDefault prev ≠ getBehindOrDefault cur) := by
  cases ib <;> simp [divergingBannerVisible]

/-- C7 counterexample: the last fetch is well within the minimum interval and a
push landed on the remote after it (fetch at 0ms, push at 500ms, now 1000ms),
yet `shouldBackgroundFetch` still skips the fetch — the interval check returns
early without ever consulting `lastPush`, refuting "for every input where the
last fetch is within the minimum interval but the last push timestamp is later
than the last fetch, the fetch runs". -/
theorem shouldBackgroundFetch_interval_precedence_cex :
    shouldBackgroundFetch (some 0) 1000 (some 500) = false ∧
    (1000 : Int) - 0 < BackgroundFetchMinimumInterval ∧ (0 : Int) < 500 := by
  decide

/-- C7 amended: the policy skips the fetch iff the repository has been fetched
before and either that fetch is within the minimum interval (regardless of any
later push) or a known last push is not later than the last fetch; it fetches
whenever the interval has elapsed and a push landed after the last fetch, or
nothing is known. -/
theorem shouldBackgroundFetch_skips_iff (lf : Option Int) (now : Int)
    (lp : Option Int) :
    shouldBackgroundFetch lf now lp = false ↔
      ∃ t, lf = some t ∧
        (now - t < BackgroundFetchMinimumInterval ∨
          ∃ p, lp = some p ∧ p ≤ t) := by
  cases lf with
  | none => simp [shouldBackgroundFetch]
  | some t =>
    cases lp with
    | none =>
      simp only [shouldBackgroundFetch, Option.some.injEq]
      split_ifs with h <;> simp [h]
    | some p =>
      constructor
      · intro hf
        refine ⟨t, rfl, ?_⟩
        by_cases h1 : now - t < BackgroundFetchMinimumInterval
        · exact Or.inl h1
        · refine Or.inr ⟨p, rfl, ?_⟩
          by_cases h2 : t < p
          · exfalso
            simp [shouldBackgroundFetch, h1, h2] at hf
          · omega
      · rintro ⟨t', ht', hd⟩
        injection ht' with h
        subst h
        simp only [shouldBackgroundFetch]
        split_ifs with h1 h2
        · rfl
        · exfalso
          rcases hd with h | ⟨p', hp', hle⟩
          · exact h1 h
          · injection hp' with hp
            subst hp
            omega
        · rfl

/-- C8: at most one merge-tree computation is in flight at a time: a trigger of
`updateCompareToBranch` that finds `currentMergeTreePromise` pending returns
that same pending promise, starts no new computation, and leaves the pending
promise in place; and the computation's display is delayed to at least the
500ms minimum by `promiseWithMinimumTimeout`. -/
theorem mergePreview_single_flight (s : MergePreviewState) (tipValid : Bool)
    (behind : Nat) (p : Nat) (h : s.currentMergeTreePromise = some p) :
    (updateCompareToBranchMergeStep tipValid behind s).2 = some p ∧
    (updateCompareToBranchMergeStep tipValid behind s).1.started = s.started ∧
    (updateCompareToBranchMergeStep tipValid behind s).1.currentMergeTreePromise = some p ∧
    ∀ fnDuration,
      mergeTreeMinimumDisplayTime ≤
        promiseWithMinimumTimeout fnDuration mergeTreeMinimumDisplayTime := by
  refine ⟨?_, ?_, ?_, fun d => le_max_right _ _⟩ <;>
    simp [updateCompareToBranchMergeStep, h]

/-- C8 witness: with promise 7 pending, a second trigger (valid tip, 3 commits
behind) returns promise 7 and starts nothing new; a 100ms computation is still
displayed only after 500ms. -/
theorem mergePreview_single_flight_witness :
    (updateCompareToBranchMergeStep true 3 c8Pending).2 = some 7 ∧
    (updateCompareToBranchMergeStep true 3 c8Pending).1.started = c8Pending.started ∧
    (updateCompareToBranchMergeStep true 3 c8Pending).1.currentMergeTreePromise = some 7 ∧
    mergeTreeMinimumDisplayTime ≤
      promiseWithMinimumTimeout 100 mergeTreeMinimumDisplayTime :=
  ⟨(mergePreview_single_flight c8Pending true 3 7 rfl).1,
   (mergePreview_single_flight c8Pending true 3 7 rfl).2.1,
   (mergePreview_single_flight c8Pending true 3 7 rfl).2.2.1,
   (mergePreview_single_flight c8Pending true 3 7 rfl).2.2.2 100⟩

/-- C2: the fast-forward planner's ref updates are exactly characterized: an
`updateRef` call is emitted iff it moves the local ref of an eligible branch
whose ahead count versus its upstream is zero and whose behind count is
positive, and that call is the pure ref update from the branch's old tip to its
upstream.  In particular no branch with `ahead > 0` (ahead or diverged) is ever
moved, and every eligible branch with `ahead == 0 ∧ behind > 0` has its local
ref moved to the upstream tip. -/
theorem fastForwardBranches_updates_iff (bs : BranchesState)
    (ab : Branch → Option AheadBehind) (u : RefUpdate) :
    u ∈ fastForwardBranches bs ab ↔
      ∃ b ∈ fastForwardEligible bs, ∃ n, ab b = some n ∧
        n.ahead = 0 ∧ 0 < n.behind ∧
        u = ⟨formatAsLocalRef b.name, b.tipSha, b.upstream.getD ""⟩ := by
  unfold fastForwardBranches
  rw [List.mem_filterMap]
  constructor
  · rintro ⟨b, hb, hfb⟩
    refine ⟨b, hb, ?_⟩
    split at hfb
    · cases hfb
    · rename_i n heq
      split at hfb
      · rename_i hc
        exact ⟨n, heq, hc.1, hc.2, (Option.some.injEq _ _ ▸ hfb).symm⟩
      · cases hfb
  · rintro ⟨b, hb, n, hab, h0, hpos, hu⟩
    refine ⟨b, hb, ?_⟩
    subst hu
    rw [hab]
    simp [h0, hpos]

/-- C3 counterexample: a repository with exactly twenty eligible branches —
every one of them tracking a remote and strictly behind its upstream with no
local commits — and no default branch.  Twenty does not exceed the threshold of
twenty, so under the claim no narrowing may happen and all twenty branches
should be fast-forwarded; the source narrows at `>= 20` and emits no ref update
at all. -/
theorem fastForward_threshold_at_20_cex :
    (eligibleBranchesOf c3State).length = 20 ∧
    ¬ (FastForwardBranchesThreshold < (eligibleBranchesOf c3State).length) ∧
    fastForwardBranches c3State c3AB = [] := by
  decide

/-- C3 amended: the eligible set is narrowed to just the default branch (if
itself eligible, else the empty set) exactly when the eligible count is greater
than or equal to the threshold of 20: at or above the threshold only the default
branch can be fast-forwarded, and strictly below it every eligible branch is
considered. -/
theorem fastForward_threshold_amended (bs : BranchesState) :
    (FastForwardBranchesThreshold ≤ (eligibleBranchesOf bs).length →
      ∀ b ∈ fastForwardEligible bs,
        bs.defaultBranch = some b ∧
        eligibleForFastForward b bs.currentBranchName = true) ∧
    ((eligibleBranchesOf bs).length < FastForwardBranchesThreshold →
      fastForwardEligible bs = eligibleBranchesOf bs) := by
  constructor
  · intro hge b hb
    simp only [fastForwardEligible] at hb
    rw [if_pos hge] at hb
    split at hb
    · rename_i d heq
      split at hb
      · rename_i he
        rcases List.mem_singleton.1 hb with rfl
        exact ⟨heq, he⟩
      · cases hb
    · cases hb
  · intro hlt
    simp only [fastForwardEligible]
    rw [if_neg (not_le.2 hlt)]

/-- C3 witness: with twenty eligible branches and an eligible default branch,
only the default branch remains; with a single eligible branch the set is left
intact. -/
theorem fastForward_threshold_amended_witness :
    (c3StateD.defaultBranch = some c3DefaultBranch ∧
      eligibleForFastForward c3DefaultBranch c3StateD.currentBranchName = true) ∧
    fastForwardEligible cSmallState = eligibleBranchesOf cSmallState :=
  ⟨(fastForward_threshold_amended c3StateD).1 (by decide) c3DefaultBranch (by decide),
   (fastForward_threshold_amended cSmallState).2 (by decide)⟩

/-- C5 counterexample: a second `_changeFileSelection` for the same file and
commit arrives mid-flight and mints token 2, so the token recorded in the slice
no longer matches the first load's token 1; yet when the first load completes,
the guard — which compares only the SHA and the file id, never `loadingDiff` —
lets it mutate the slice, storing its diff and clearing the second load's
token.  This refutes "the minted loadingDiff token no longer matches ... then
the completed load does not mutate the commitSelection state slice". -/
theorem diffLoad_token_mismatch_mutates_cex :
    c5Mid.loadingDiff = some 2 ∧
    c5Mid.loadingDiff ≠ some 1 ∧
    c5After ≠ c5Mid ∧
    c5After.diff = some c5Diff ∧
    c5After.loadingDiff = none := by
  decide

/-- C5 amended: the completion of a `_changeFileSelection` diff load leaves the
slice exactly as it found it whenever the selected commit SHA differs from the
one recorded at load start, no file is selected any more, or the selected
file's id differs from the loaded file's; the minted `loadingDiff` token is
checked only by the sketch-preview callback
(`updateDiffWithSketchPreview`), which discards its result on a token
mismatch. -/
theorem diffLoad_staleness_guard (shaBefore : Option String)
    (file : CommittedFileChange) (diff : Diff) (cs : CommitSelection)
    (diffId preview : Nat) :
    (cs.sha ≠ shaBefore → changeFileSelectionComplete shaBefore file diff cs = cs) ∧
    (cs.file = none → changeFileSelectionComplete shaBefore file diff cs = cs) ∧
    (∀ f, cs.file = some f → f.id ≠ file.id →
      changeFileSelectionComplete shaBefore file diff cs = cs) ∧
    (cs.loadingDiff ≠ some diffId →
      updateDiffWithSketchPreview diffId preview cs = none) := by
  refine ⟨fun h => ?_, fun h => ?_, fun f hf hid => ?_, fun h => ?_⟩
  · simp [changeFileSelectionComplete, h]
  · unfold changeFileSelectionComplete
    by_cases hsha : cs.sha ≠ shaBefore
    · rw [if_pos hsha]
    · rw [if_neg hsha, h]
  · unfold changeFileSelectionComplete
    by_cases hsha : cs.sha ≠ shaBefore
    · rw [if_pos hsha]
    · rw [if_neg hsha, hf]
      simp [hid]
  · unfold updateDiffWithSketchPreview
    rw [if_pos (Or.inr h)]

/-- C5 witness: with the intervening state holding token 2, a completion whose
recorded SHA differs is discarded, and the sketch-preview callback for token 1
is discarded. -/
theorem diffLoad_staleness_guard_witness :
    changeFileSelectionComplete (some "sha-b") c5File c5Diff c5Mid = c5Mid ∧
    updateDiffWithSketchPreview 1 0 c5Mid = none :=
  ⟨(diffLoad_staleness_guard (some "sha-b") c5File c5Diff c5Mid 1 0).1 (by decide),
   (diffLoad_staleness_guard (some "sha-b") c5File c5Diff c5Mid 1 0).2.2.2 (by decide)⟩

theorem pushWeight_eq : pushWeight = 9 / 14 := by
  norm_num [pushWeight, pushScale, pushPhaseRawWeight, fetchPhaseRawWeight, pushRefreshWeight]

theorem pushFetchWeight_eq : pushFetchWeight = 9 / 35 := by
  norm_num [pushFetchWeight, pushScale, pushPhaseRawWeight, fetchPhaseRawWeight, pushRefreshWeight]

theorem chain'_le_append {l₁ l₂ : List ℚ} (h₁ : List.Chain' (· ≤ ·) l₁)
    (h₂ : List.Chain' (· ≤ ·) l₂) (hle : ∀ x ∈ l₁, ∀ y ∈ l₂, x ≤ y) :
    List.Chain' (· ≤ ·) (l₁ ++ l₂) :=
  List.chain'_append.2 ⟨h₁, h₂, fun x hx y hy =>
    hle x (List.mem_of_mem_getLast? hx) y (List.mem_of_mem_head? hy)⟩

/-- C4 counterexample: a full successful push with the phases reporting their
complete 0→100% fractions reports the values 0, 9/14, 9/10, 9/10, 19/20 and is
then cleared to null: the composed progress ends at 19/20 = 0.95 — the final
half of the refresh weight is never reported — so the value 1.0 is never
reached before the progress is cleared, refuting "reaches exactly 1.0 at
completion before the progress is cleared to null". -/
theorem performPush_never_reaches_one_cex :
    performPushValues [1] [1] = [0, 9/14, 9/10, 9/10, 19/20] ∧
    (19 : ℚ)/20 < 1 ∧
    some (1 : ℚ) ∉ performPushProgress [1] [1] := by
  refine ⟨?_, by norm_num, ?_⟩
  · simp [performPushValues, pushWeight_eq, pushFetchWeight_eq, pushRefreshWeight]
    norm_num
  · simp [performPushProgress, performPushValues, pushWeight_eq, pushFetchWeight_eq,
      pushRefreshWeight]
    norm_num

/-- C4 amended: over one composed push whose phase-local fractions are
non-decreasing within [0,1], the reported progress values are monotonically
non-decreasing, the last reported value is exactly 19/20 (= 0.95, the refresh
phase's halfway point), every reported value is at most 19/20 — so 1.0 is never
reported — and the stream then ends with the null that clears the progress. -/
theorem performPush_progress_monotone (ps fs : List ℚ)
    (hps : List.Chain' (· ≤ ·) ps) (hfs : List.Chain' (· ≤ ·) fs)
    (hps01 : ∀ p ∈ ps, 0 ≤ p ∧ p ≤ 1) (hfs01 : ∀ f ∈ fs, 0 ≤ f ∧ f ≤ 1) :
    List.Chain' (· ≤ ·) (performPushValues ps fs) ∧
    (performPushValues ps fs).getLast? = some (19 / 20) ∧
    (∀ v ∈ performPushValues ps fs, v ≤ 19 / 20) ∧
    (1 : ℚ) ∉ performPushValues ps fs ∧
    (performPushProgress ps fs).getLast? = some none := by
  have hpw : (0:ℚ) ≤ pushWeight := by rw [pushWeight_eq]; norm_num
  have hfw : (0:ℚ) ≤ pushFetchWeight := by rw [pushFetchWeight_eq]; norm_num
  have hsum : pushWeight + pushFetchWeight = 9/10 := by
    rw [pushWeight_eq, pushFetchWeight_eq]; norm_num
  have hfinal : pushWeight + pushFetchWeight + pushRefreshWeight * (1/2) = 19/20 := by
    rw [pushWeight_eq, pushFetchWeight_eq]; norm_num [pushRefreshWeight]
  have hA_lb : ∀ x ∈ ps.map (fun p => pushWeight * p), 0 ≤ x := by
    intro x hx
    obtain ⟨p, hp, rfl⟩ := List.mem_map.1 hx
    exact mul_nonneg hpw (hps01 p hp).1
  have hA_ub : ∀ x ∈ ps.map (fun p => pushWeight * p), x ≤ pushWeight := by
    intro x hx
    obtain ⟨p, hp, rfl⟩ := List.mem_map.1 hx
    exact mul_le_of_le_one_right hpw (hps01 p hp).2
  have hB_lb : ∀ y ∈ fs.map (fun f => pushWeight + f * pushFetchWeight),
      pushWeight ≤ y := by
    intro y hy
    obtain ⟨f, hf, rfl⟩ := List.mem_map.1 hy
    exact le_add_of_nonneg_right (mul_nonneg (hfs01 f hf).1 hfw)
  have hB_ub : ∀ y ∈ fs.map (fun f => pushWeight + f * pushFetchWeight),
      y ≤ pushWeight + pushFetchWeight := by
    intro y hy
    obtain ⟨f, hf, rfl⟩ := List.mem_map.1 hy
    exact add_le_add_left (mul_le_of_le_one_left hfw (hfs01 f hf).2) pushWeight
  have hcA : List.Chain' (· ≤ ·) (ps.map (fun p => pushWeight * p)) :=
    (List.chain'_map _).2 (hps.imp fun a b hab => mul_le_mul_of_nonneg_left hab hpw)
  have hcB : List.Chain' (· ≤ ·) (fs.map (fun f => pushWeight + f * pushFetchWeight)) :=
    (List.chain'_map _).2 (hfs.imp fun a b hab =>
      add_le_add_left (mul_le_mul_of_nonneg_right hab hfw) pushWeight)
  have h0A : List.Chain' (· ≤ ·) ([0] ++ ps.map (fun p => pushWeight * p)) :=
    chain'_le_append (List.chain'_singleton 0) hcA (by
      intro x hx y hy
      rcases List.mem_singleton.1 hx with rfl
      exact hA_lb y hy)
  have h0AB : List.Chain' (· ≤ ·)
      (([0] ++ ps.map (fun p => pushWeight * p))
        ++ fs.map (fun f => pushWeight + f * pushFetchWeight)) :=
    chain'_le_append h0A hcB (by
      intro x hx y hy
      rcases List.mem_append.1 hx with hx | hx
      · rcases List.mem_singleton.1 hx with rfl
        exact le_trans hpw (hB_lb y hy)
      · exact le_trans (hA_ub x hx) (hB_lb y hy))
  have hub3 : ∀ x ∈ (([0] ++ ps.map (fun p => pushWeight * p))
      ++ fs.map (fun f => pushWeight + f * pushFetchWeight)),
      x ≤ pushWeight + pushFetchWeight := by
    intro x hx
    rcases List.mem_append.1 hx with hx | hx
    · rcases List.mem_append.1 hx with hx | hx
      · rcases List.mem_singleton.1 hx with rfl
        exact add_nonneg hpw hfw
      · exact le_trans (hA_ub x hx) (le_add_of_nonneg_right hfw)
    · exact hB_ub x hx
  have h3 : List.Chain' (· ≤ ·)
      ((([0] ++ ps.map (fun p => pushWeight * p))
        ++ fs.map (fun f => pushWeight + f * pushFetchWeight))
        ++ [pushWeight + pushFetchWeight]) :=
    chain'_le_append h0AB (List.chain'_singleton _) (by
      intro x hx y hy
      rcases List.mem_singleton.1 hy with rfl
      exact hub3 x hx)
  have hub4 : ∀ x ∈ ((([0] ++ ps.map (fun p => pushWeight * p))
      ++ fs.map (fun f => pushWeight + f * pushFetchWeight))
      ++ [pushWeight + pushFetchWeight]),
      x ≤ 19/20 := by
    intro x hx
    have h910 : pushWeight + pushFetchWeight ≤ 19/20 := by rw [hsum]; norm_num
    rcases List.mem_append.1 hx with hx | hx
    · exact le_trans (hub3 x hx) h910
    · rcases List.mem_singleton.1 hx with rfl
      exact h910
  have h4 : List.Chain' (· ≤ ·) (performPushValues ps fs) := by
    unfold performPushValues
    refine chain'_le_append h3 (List.chain'_singleton _) ?_
    intro x hx y hy
    rcases List.mem_singleton.1 hy with rfl
    rw [hfinal]
    exact hub4 x hx
  have hubAll : ∀ v ∈ performPushValues ps fs, v ≤ 19/20 := by
    intro v hv
    unfold performPushValues at hv
    rcases List.mem_append.1 hv with hv | hv
    · exact hub4 v hv
    · rcases List.mem_singleton.1 hv with rfl
      rw [hfinal]
  refine ⟨h4, ?_, hubAll, ?_, ?_⟩
  · unfold performPushValues
    rw [List.getLast?_concat, hfinal]
  · intro h
    exact absurd (hubAll 1 h) (by norm_num)
  · unfold performPushProgress
    rw [List.getLast?_concat]

/-- C4 witness: a push whose push phase reports 50% then 100% and whose fetch
phase reports 50% yields a non-decreasing stream in which 1.0 never occurs. -/
theorem performPush_progress_monotone_witness :
    List.Chain' (· ≤ ·) (performPushValues [1/2, 1] [1/2]) ∧
    (1 : ℚ) ∉ performPushValues [1/2, 1] [1/2] :=
  ⟨(performPush_progress_monotone [1/2, 1] [1/2]
      (List.chain'_cons.2 ⟨by norm_num, List.chain'_singleton 1⟩)
      (List.chain'_singleton _)
      (by intro p hp; fin_cases hp <;> norm_num)
      (by intro f hf; fin_cases hf; norm_num)).1,
   (performPush_progress_monotone [1/2, 1] [1/2]
      (List.chain'_cons.2 ⟨by norm_num, List.chain'_singleton 1⟩)
      (List.chain'_singleton _)
      (by intro p hp; fin_cases hp <;> norm_num)
      (by intro f hf; fin_cases hf; norm_num)).2.2.2.1⟩

end AppStore
